import Mathlib

/-!
Verification of the spex asynchronous-iteration library (mixed-value
resolver, sequence driver, page driver, stream reader) against its
natural-language specification.

The JavaScript source is shallowly embedded: JS values become the
inductive `JsVal`; mixed values (plain value / callable / promise)
become the inductive `Mixed`; the stateful driver loops become
fuel-indexed step interpreters over explicit state records, with
promise settlement made explicit (a continuation registered via
`.then` runs exactly at the settlement point of the embedding).
Wall-clock reads (`Date.now()`) are modelled by a logical clock that
advances by one at each read; the resulting delay/duration numbers are
threaded exactly where the code threads them but their concrete values
are never what the theorems are about.
-/

namespace Spex

/-- Embedding of the JavaScript values the library manipulates:
`undefined`, numbers, strings, booleans and arrays. -/
inductive JsVal where
  | undef : JsVal
  | num : Int → JsVal
  | str : String → JsVal
  | boolV : Bool → JsVal
  | arr : List JsVal → JsVal

/-- Embedding of the JS test `value === undefined`. -/
def JsVal.isUndef : JsVal → Bool
  | .undef => true
  | _ => false

/-- Embedding of the JS test `value instanceof Array`. -/
def JsVal.isArr : JsVal → Bool
  | .arr _ => true
  | _ => false

/-- A mixed value (lib/utils.js): either a concrete value, a callable
producing another mixed value (and possibly throwing, hence `Except`),
or a promise of a mixed value.  A promise is modelled by its eventual
settlement: fulfilled with a mixed value or rejected with a reason.
Generator functions are wrapped by `asyncAdapter` into
promise-returning callables before they reach the resolver loop, so
the `fn`/`prom` constructors cover them as well. -/
inductive Mixed where
  | val : JsVal → Mixed
  | fn : (List JsVal → Except JsVal Mixed) → Mixed
  | prom : Except JsVal Mixed → Mixed

/-- Outcome of `$utils.resolve`: `onSuccess(value, delayed)`,
`onError(reason)`, or fuel exhaustion (the JS loop does not terminate
within the given number of unwrap steps). -/
inductive ROutcome where
  | success : JsVal → Bool → ROutcome
  | error : JsVal → ROutcome
  | fuel : ROutcome

/-- Embedding of `resolve(value, params, onSuccess, onError)` from
lib/utils.js.  The JS loop is:

    while value is a Function:
      value := params ? value.apply(self, params) : value.call(self)   (throw -> onError)
    if isPromise(value): value.then(data => {delayed := true; loop})  .catch(onError)
    else onSuccess(value, delayed)

`params` is an `Option`: `some ps` is a truthy argument array, `none`
is the falsy no-argument case (the callable is then invoked with the
empty argument list).  Note that the code never clears `params`, so
the same argument list is applied to every callable met during
unwrapping, also after a promise settlement re-enters the loop. -/
def resolveFuel : Nat → Mixed → Option (List JsVal) → Bool → ROutcome
  | 0, _, _, _ => .fuel
  | fuel + 1, .fn f, params, delayed =>
    match f (params.getD []) with
    | .error e => .error e
    | .ok m => resolveFuel fuel m params delayed
  | _ + 1, .prom (.error e), _, _ => .error e
  | fuel + 1, .prom (.ok m), params, _ => resolveFuel fuel m params true
  | _ + 1, .val v, _, delayed => .success v delayed

/-- Modelled from the spec: the variant of the resolver described in
section 4.1, where the argument list is applied to the first callable
invocation only and every further callable is invoked with no
arguments.  Kept separate from `resolveFuel` (which embeds the code)
so the two can be compared. -/
def resolveSpecFuel : Nat → Mixed → Option (List JsVal) → Bool → ROutcome
  | 0, _, _, _ => .fuel
  | fuel + 1, .fn f, params, delayed =>
    match f (params.getD []) with
    | .error e => .error e
    | .ok m => resolveSpecFuel fuel m none delayed
  | _ + 1, .prom (.error e), _, _ => .error e
  | fuel + 1, .prom (.ok m), params, _ => resolveSpecFuel fuel m params true
  | _ + 1, .val v, _, delayed => .success v delayed

/-- Instrumented version of `resolveFuel` that additionally records,
in order, the argument list passed to each callable invocation. -/
def resolveTrace : Nat → Mixed → Option (List JsVal) → Bool → ROutcome × List (List JsVal)
  | 0, _, _, _ => (.fuel, [])
  | fuel + 1, .fn f, params, delayed =>
    match f (params.getD []) with
    | .error e => (.error e, [params.getD []])
    | .ok m =>
      let r := resolveTrace fuel m params delayed
      (r.1, params.getD [] :: r.2)
  | _ + 1, .prom (.error e), _, _ => (.error e, [])
  | fuel + 1, .prom (.ok m), params, _ => resolveTrace fuel m params true
  | _ + 1, .val v, _, delayed => (.success v delayed, [])

/-- A nested callable chain: the outer callable ignores its arguments
and returns an inner callable that returns its own first argument
(`undefined` when invoked with no arguments).  This observably
distinguishes "subsequent callables get the original arguments" from
"subsequent callables get no arguments". -/
def c3chain : Mixed :=
  .fn (fun _ => .ok (.fn (fun args => .ok (.val (args.headD .undef)))))

/-! ## Scheduling traces

The drivers are single-threaded and continuation-driven: after a
destination/receiver returns a promise, the loop only continues from
inside that promise's `.then`/`.catch` handler.  To state ordering
properties we let the interpreters emit a trace of scheduling events
and check it with a scanner. -/

/-- Scheduling events of one driver invocation: `pull i` = the i-th
source pull (sequence) or drain step (stream reader) begins;
`consSync i` = the consumer (dest/receiver) is invoked at index `i`
and returns a non-promise; `consAsync i` = the consumer is invoked at
index `i` and returns a promise; `consSettle i` = that promise
settles. -/
inductive TEv where
  | pull : Nat → TEv
  | consSync : Nat → TEv
  | consAsync : Nat → TEv
  | consSettle : Nat → TEv

/-- State of the serialization scanner: the index of a consumer
promise still pending (if any), the index of the last pull, and
whether the trace has been well-serialized so far. -/
structure SerSt where
  pending : Option Nat
  last : Option Nat
  ok : Bool

/-- One scanner step.  A pull is only legal when no consumer promise
is pending and its index is the successor of the previous pull's
index (0 for the first pull); a consumer call must belong to the
current pull and find no other promise pending; a settlement must
match the pending promise. -/
def serStep (s : SerSt) : TEv → SerSt
  | .pull i =>
    { pending := s.pending, last := some i,
      ok := s.ok && s.pending.isNone &&
        (i == (match s.last with | none => 0 | some j => j + 1)) }
  | .consSync i =>
    { s with ok := s.ok && s.pending.isNone && (s.last == some i) }
  | .consAsync i =>
    { pending := some i, last := s.last,
      ok := s.ok && s.pending.isNone && (s.last == some i) }
  | .consSettle i =>
    { pending := none, last := s.last, ok := s.ok && (s.pending == some i) }

/-- A trace is serialized when the scanner accepts it from the initial
state: pulls are consecutive from 0, and no pull or consumer call
happens while a consumer promise is pending. -/
def serOK (t : List TEv) : Bool :=
  (t.foldl serStep ⟨none, none, true⟩).ok

/-! ## Sequence driver (lib/ext/sequence.js)

The source is embedded by the outcome of `$utils.resolve` on it:
called with `(index, data, delay)` it either succeeds with a value and
a delayed flag or fails with a reason.  The destination is embedded by
the observable behaviour of `dest.call(...)`: it throws, returns a
non-promise, or returns a promise that later fulfills or rejects. -/

/-- Outcome of resolving the source at one index: `onSuccess(value,
delayed)` or `onError(reason)`. -/
inductive PullRes where
  | ok : JsVal → Bool → PullRes
  | err : JsVal → PullRes

/-- Observable behaviour of one destination (or stream-receiver)
call: synchronous throw, non-promise return, or a returned promise
that eventually fulfills or rejects. -/
inductive DRes where
  | thrown : JsVal → DRes
  | value : DRes
  | promOk : DRes
  | promErr : JsVal → DRes

/-- Aggregate error of the batch operation (black box, consumed by the
page driver): `errors` is what its `getErrors()` returns. -/
structure BatchError where
  errors : List JsVal

/-- Body of a driver rejection record: `{error, source}` (source-side),
`{error, dest}` (destination-side) or `{data}` (page batch failure). -/
inductive RejectBody where
  | src : JsVal → JsVal → RejectBody
  | dst : JsVal → JsVal → RejectBody
  | dat : BatchError → RejectBody

/-- A rejection record: its `index` field, its body, and whether a
`getError` method was attached to it (page's `fail` attaches one via
`$utils.extend`; sequence's reject objects are plain literals). -/
structure Reject where
  index : Nat
  body : RejectBody
  hasGetError : Bool

/-- The `getError` closure that page's `fail` attaches:
`('data' in reason) ? reason.data.getErrors()[0] : reason.error`
(indexing an empty array yields `undefined`). -/
def fail_getError (r : Reject) : JsVal :=
  match r.body with
  | .dat d => d.errors.headD .undef
  | .src e _ => e
  | .dst e _ => e

/-- Success result of `sequence`: `{total, duration}` when `track` is
false, or the accumulated array extended with the read-only
non-enumerable `duration` property when `track` is true (the
annotation `$utils.extend(result, 'duration', length)` is modelled by
the separate `duration` field of `tracked`). -/
inductive SeqResult where
  | untracked : Nat → Nat → SeqResult
  | tracked : List JsVal → Nat → SeqResult

/-- Outcome of a sequence run: resolve, reject, or fuel exhaustion. -/
inductive SeqOutcome where
  | ok : SeqResult → SeqOutcome
  | err : Reject → SeqOutcome
  | fuel : SeqOutcome

/-- The mutable state of sequence's `loop`: current index, the `data`
variable, the two `Date.now()` bookmarks, the `result` accumulator and
the logical clock. -/
structure SeqSt where
  idx : Nat
  data : JsVal
  srcTime : Nat
  destTime : Nat
  acc : List JsVal
  clock : Nat

/-- The `finish()` helper of sequence: when `track` is false the
result is `{total: idx, duration}`, otherwise the accumulated array
annotated with `duration`. -/
def mkSeqResult (track : Bool) (acc : List JsVal) (idx dur : Nat) : SeqResult :=
  if track then .tracked acc dur else .untracked idx dur

/-- Aggregate observation of a sequence run: its outcome, how many
times the source and the destination were invoked, and the emitted
scheduling trace. -/
structure SeqRun where
  out : SeqOutcome
  srcCalls : Nat
  destCalls : Nat
  trace : List TEv

/-- Sequence's `loop(idx)`, translated clause by clause from
lib/ext/sequence.js lines 100-180, indexed by fuel: read the clock,
compute `srcDelay`, resolve the source with `[idx, data, srcDelay]`;
on error reject `{index, error, source: data}` (with `data` still
holding the previous value); on success with `undefined` finish
(`{total: idx, duration}` or the tracked array); otherwise accumulate
when tracking, invoke the destination when present (rejecting
`{index, error, dest: data}` on a throw or a promise rejection), and
run `next`: pre-increment `idx`, finish when `limit === idx`, else
loop.  When the step was not delayed the code defers `loop(idx)` to a
fresh microtask via `$p.resolve().then(...)`; the deferral changes
neither the state nor the relative order of pulls and destination
settlements, so both branches of `next` continue identically here and
the resolver's `delayed` flag is unused. -/
def seqLoop (src : Nat → JsVal → Option Nat → PullRes)
    (dest : Option (Nat → JsVal → Option Nat → DRes))
    (limit : Nat) (track : Bool) : Nat → SeqSt → SeqRun
  | 0, _ => ⟨.fuel, 0, 0, []⟩
  | fuel + 1, st =>
    match src st.idx st.data (if st.idx = 0 then none else some (st.clock - st.srcTime)) with
    | .err reason =>
      ⟨.err ⟨st.idx, .src reason st.data, false⟩, 1, 0, [.pull st.idx]⟩
    | .ok value _delayed =>
      if value.isUndef then
        ⟨.ok (mkSeqResult track st.acc st.idx (st.clock + 1)), 1, 0, [.pull st.idx]⟩
      else
        let acc := if track then st.acc ++ [value] else st.acc
        match dest with
        | none =>
          if limit = st.idx + 1 then
            ⟨.ok (mkSeqResult track acc (st.idx + 1) (st.clock + 1)), 1, 0, [.pull st.idx]⟩
          else
            let r := seqLoop src dest limit track fuel
              ⟨st.idx + 1, value, st.clock, st.destTime, acc, st.clock + 1⟩
            ⟨r.out, r.srcCalls + 1, r.destCalls, .pull st.idx :: r.trace⟩
        | some d =>
          match d st.idx value (if st.idx = 0 then none else some (st.clock + 1 - st.destTime)) with
          | .thrown e =>
            ⟨.err ⟨st.idx, .dst e value, false⟩, 1, 1,
              [.pull st.idx, .consSync st.idx]⟩
          | .promErr e =>
            ⟨.err ⟨st.idx, .dst e value, false⟩, 1, 1,
              [.pull st.idx, .consAsync st.idx, .consSettle st.idx]⟩
          | .value =>
            if limit = st.idx + 1 then
              ⟨.ok (mkSeqResult track acc (st.idx + 1) (st.clock + 2)), 1, 1,
                [.pull st.idx, .consSync st.idx]⟩
            else
              let r := seqLoop src dest limit track fuel
                ⟨st.idx + 1, value, st.clock, st.clock + 1, acc, st.clock + 2⟩
              ⟨r.out, r.srcCalls + 1, r.destCalls + 1,
                .pull st.idx :: .consSync st.idx :: r.trace⟩
          | .promOk =>
            if limit = st.idx + 1 then
              ⟨.ok (mkSeqResult track acc (st.idx + 1) (st.clock + 2)), 1, 1,
                [.pull st.idx, .consAsync st.idx, .consSettle st.idx]⟩
            else
              let r := seqLoop src dest limit track fuel
                ⟨st.idx + 1, value, st.clock, st.clock + 1, acc, st.clock + 2⟩
              ⟨r.out, r.srcCalls + 1, r.destCalls + 1,
                .pull st.idx :: .consAsync st.idx :: .consSettle st.idx :: r.trace⟩

/-- A whole sequence run from `loop(0)` with fresh state (`data`
undefined, clock at 0). -/
def seqRun (src : Nat → JsVal → Option Nat → PullRes)
    (dest : Option (Nat → JsVal → Option Nat → DRes))
    (limit : Nat) (track : Bool) (fuel : Nat) : SeqRun :=
  seqLoop src dest limit track fuel ⟨0, .undef, 0, 0, [], 0⟩

/-- A JS argument that is expected to be a function: either an actual
function of the given type or any other JS value. -/
inductive FnArg (F : Type) where
  | fn : F → FnArg F
  | nonFn : JsVal → FnArg F

/-- Embedding of `$utils.wrap`: a function is kept (a generator
function is adapted, staying a function); anything else becomes
`null`. -/
def wrap {F : Type} : FnArg F → Option F
  | .fn f => some f
  | .nonFn _ => none

/-- The public `sequence(source, dest, limit, track)` entry: throws
`Invalid sequence source.` when the source is not a function,
otherwise normalizes `dest` through `wrap` and runs the loop.  (The
`limit = (limit > 0) ? parseInt(limit) : 0` normalization is embedded
by taking `limit : Nat` with 0 meaning unlimited.) -/
def sequence (source : FnArg (Nat → JsVal → Option Nat → PullRes))
    (dest : FnArg (Nat → JsVal → Option Nat → DRes))
    (limit : Nat) (track : Bool) (fuel : Nat) : Except String SeqRun :=
  match source with
  | .nonFn _ => .error ("Invalid sequence source.")
  | .fn s => .ok (seqRun s (wrap dest) limit track fuel)

/-! ## Page driver (lib/ext/page.js)

Same loop skeleton as sequence, with the array check and the batch
resolution step in the middle.  The batch operation is an external
collaborator and is taken as a parameter: on an array of mixed values
it either fulfills with the array of concrete values or rejects with
an aggregate `BatchError`. -/

/-- Settlement of `$spex.batch` on one page. -/
inductive BatchRes where
  | ok : List JsVal → BatchRes
  | err : BatchError → BatchRes

/-- Success result of `page`: `{pages, total, duration}`. -/
structure PageResult where
  pages : Nat
  total : Nat
  duration : Nat

/-- Outcome of a page run. -/
inductive PageOutcome where
  | ok : PageResult → PageOutcome
  | err : Reject → PageOutcome
  | fuel : PageOutcome

/-- The mutable state of page's `loop`: current index, the `request`
variable (previous batch-resolved page, `undefined` initially), the
running `total`, the `Date.now()` bookmarks, and the logical clock. -/
structure PageSt where
  idx : Nat
  request : JsVal
  total : Nat
  srcTime : Nat
  destTime : Nat
  clock : Nat

/-- The `fail(reason)` helper of page: set `reason.index = idx` and
attach the `getError` method via `$utils.extend` (modelled by
`hasGetError := true`; the attached closure is `fail_getError`). -/
def pageFail (idx : Nat) (body : RejectBody) : Reject :=
  ⟨idx, body, true⟩

/-- Aggregate observation of a page run: outcome and number of source
invocations. -/
structure PageRun where
  out : PageOutcome
  srcCalls : Nat

/-- Page's `loop(idx)`, translated from lib/ext/page.js, indexed by
fuel: resolve the source with `[idx, request, srcDelay]`; on error
fail `{index, error, source: request}`; on `undefined` resolve
`{pages: idx, total, duration}`; on a non-array fail `{index, error:
"Unexpected data returned from the source.", source: request}`; on an
array, batch-resolve it — a batch rejection fails `{index, data}`, a
batch fulfillment updates `request`/`total`, optionally invokes the
destination (failing `{index, error, dest}` on a throw or a promise
rejection), and runs `next`: pre-increment `idx`, resolve
`{pages: idx, total, duration}` when `limit === idx`, else loop. -/
def pageLoop (src : Nat → JsVal → Option Nat → PullRes)
    (dest : Option (Nat → List JsVal → Option Nat → DRes))
    (batch : List JsVal → BatchRes)
    (limit : Nat) : Nat → PageSt → PageRun
  | 0, _ => ⟨.fuel, 0⟩
  | fuel + 1, st =>
    match src st.idx st.request (if st.idx = 0 then none else some (st.clock - st.srcTime)) with
    | .err reason => ⟨.err (pageFail st.idx (.src reason st.request)), 1⟩
    | .ok value _delayed =>
      if value.isUndef then
        ⟨.ok ⟨st.idx, st.total, st.clock + 1⟩, 1⟩
      else
        match value with
        | .arr xs =>
          match batch xs with
          | .err e => ⟨.err (pageFail st.idx (.dat e)), 1⟩
          | .ok data =>
            match dest with
            | none =>
              if limit = st.idx + 1 then
                ⟨.ok ⟨st.idx + 1, st.total + data.length, st.clock + 1⟩, 1⟩
              else
                let r := pageLoop src dest batch limit fuel
                  ⟨st.idx + 1, .arr data, st.total + data.length,
                    st.clock, st.destTime, st.clock + 1⟩
                ⟨r.out, r.srcCalls + 1⟩
            | some d =>
              match d st.idx data (if st.idx = 0 then none else some (st.clock + 1 - st.destTime)) with
              | .thrown e => ⟨.err (pageFail st.idx (.dst e (.arr data))), 1⟩
              | .promErr e => ⟨.err (pageFail st.idx (.dst e (.arr data))), 1⟩
              | .value =>
                if limit = st.idx + 1 then
                  ⟨.ok ⟨st.idx + 1, st.total + data.length, st.clock + 2⟩, 1⟩
                else
                  let r := pageLoop src dest batch limit fuel
                    ⟨st.idx + 1, .arr data, st.total + data.length,
                      st.clock, st.clock + 1, st.clock + 2⟩
                  ⟨r.out, r.srcCalls + 1⟩
              | .promOk =>
                if limit = st.idx + 1 then
                  ⟨.ok ⟨st.idx + 1, st.total + data.length, st.clock + 2⟩, 1⟩
                else
                  let r := pageLoop src dest batch limit fuel
                    ⟨st.idx + 1, .arr data, st.total + data.length,
                      st.clock, st.clock + 1, st.clock + 2⟩
                  ⟨r.out, r.srcCalls + 1⟩
        | _ =>
          ⟨.err (pageFail st.idx
            (.src (.str ("Unexpected data returned from the source.")) st.request)), 1⟩

/-- A whole page run from `loop(0)` with fresh state. -/
def pageRun (src : Nat → JsVal → Option Nat → PullRes)
    (dest : Option (Nat → List JsVal → Option Nat → DRes))
    (batch : List JsVal → BatchRes)
    (limit : Nat) (fuel : Nat) : PageRun :=
  pageLoop src dest batch limit fuel ⟨0, .undef, 0, 0, 0, 0⟩

/-- The public `page(source, dest, limit)` entry: throws
`Invalid page source.` when the source is not a function, otherwise
normalizes `dest` through `wrap` and runs the loop. -/
def page (source : FnArg (Nat → JsVal → Option Nat → PullRes))
    (dest : FnArg (Nat → List JsVal → Option Nat → DRes))
    (batch : List JsVal → BatchRes) (limit : Nat) (fuel : Nat) :
    Except String PageRun :=
  match source with
  | .nonFn _ => .error ("Invalid page source.")
  | .fn s => .ok (pageRun s (wrap dest) batch limit fuel)

/-! ## Stream reader (lib/ext/stream/read.js)

The push source is embedded by the list of events it emits, in order;
a `readable` event carries the chunks it appends to the stream's
internal buffer (each chunk represented by its `length`).
`stream.read` is modelled as yielding the buffered chunks one at a
time, so the do-while drain loop empties the whole buffer (`readSize`
only influences how the stream splits its bytes into chunks, which in
this model is part of the event input).  The receiver's returned
promise settles before the next stream event is delivered, i.e. the
embedding covers the runs in which the stream stays quiet while the
receiver is working; the `ready`/`waiting`/`stop` gating is translated
verbatim nonetheless. -/

/-- One event emitted by the push source. -/
inductive SEv where
  | readable : List Nat → SEv
  | endEv : SEv
  | closeEv : SEv
  | errorEv : JsVal → SEv

/-- Detects an `end` event in a stream event list. -/
def hasEnd : List SEv → Bool
  | [] => false
  | .endEv :: _ => true
  | _ :: rest => hasEnd rest

/-- The per-invocation state of `read`: the counters `reads`, `length`
and `index`, the flags `ready`, `waiting` and `stop`, the stream's
internal buffer, the listeners currently attached by this invocation,
the `cbTime` bookmark and the logical clock. -/
structure RState where
  reads : Nat
  length : Nat
  index : Nat
  ready : Bool
  waiting : Bool
  stop : Bool
  buffer : List Nat
  listeners : List String
  cbTime : Nat
  clock : Nat

/-- The four listeners `read` registers, in registration order. -/
def registerAll : List String := ["readable", "end", "close", "error"]

/-- Embedding of `stream.removeListener(name, handler)`. -/
def removeL (l : List String) (name : String) : List String :=
  l.filter (fun s => s ≠ name)

/-- The `cleanup()` helper: removes the `readable`, `close`, `error`
and `end` listeners, in that order. -/
def cleanupL (l : List String) : List String :=
  removeL (removeL (removeL (removeL l ("readable")) ("close")) ("error")) ("end")

/-- Resolution record of `read`: `{calls, reads, length, duration}`. -/
structure ReadResult where
  calls : Nat
  reads : Nat
  length : Nat
  duration : Nat

/-- Settlement of a `read` run: resolved, rejected, or still pending
after all stream events have been delivered. -/
inductive ROut where
  | ok : ReadResult → ROut
  | err : JsVal → ROut
  | pending : ROut

/-- Settlement-path actions, logged in execution order: the
`cleanup()` call and the resolve/reject of the governing promise. -/
inductive Act where
  | cleanupAct : Act
  | settleRes : Act
  | settleRej : Act

/-- Aggregate observation of a `read` run: its settlement, the final
state (including remaining listeners), the settlement-path action log
and the scheduling trace. -/
structure ReadRun where
  out : ROut
  final : RState
  log : List Act
  trace : List TEv

/-- The `success()` helper: `cleanup()` then resolve with
`{calls: index, reads, length, duration}`. -/
def readSuccess (st : RState) : ReadRun :=
  ⟨.ok ⟨st.index, st.reads, st.length, st.clock⟩,
    { st with listeners := cleanupL st.listeners },
    [.cleanupAct, .settleRes], []⟩

/-- The `fail(error)` helper: set `stop`, `cleanup()`, then reject
with the raw reason. -/
def readFail (st : RState) (e : JsVal) : ReadRun :=
  ⟨.err e, { st with stop := true, listeners := cleanupL st.listeners },
    [.cleanupAct, .settleRej], []⟩

/-- Delivery of the stream's events, in order, to the four handlers:
`readable` buffers the chunks, sets `ready` and runs `process()`;
`end` calls `success()` unless `closable`; `close` calls `success()`
unconditionally; `error` calls `fail`.  Once the promise settles the
remaining events are dropped — the listeners have been removed.

The inlined `process()` follows lib/ext/stream/read.js lines 106-152:
if the gate `!ready || stop || waiting` blocks, nothing happens;
otherwise `ready` is cleared, `waiting` set, the whole buffer drained
into a batch (counting `reads` and `length` per chunk) and, when the
batch is non-empty, the receiver invoked with `(index++, data,
cbDelay)`.  A synchronous throw or a promise rejection triggers
`fail`; after a synchronous return or a promise fulfillment `waiting`
is cleared and `process()` recurses — that recursive call finds
`ready` false and returns immediately, so it is not re-modelled. -/
def readLoop (recv : Nat → List Nat → Option Nat → DRes) (closable : Bool) :
    List SEv → RState → ReadRun
  | [], st => ⟨.pending, st, [], []⟩
  | ev :: rest, st =>
    match ev with
    | .readable cs =>
      let stb : RState := { st with buffer := st.buffer ++ cs, ready := true }
      if !stb.ready || stb.stop || stb.waiting then
        readLoop recv closable rest stb
      else
        let st2 : RState :=
          { stb with ready := false, waiting := true, buffer := [],
                     reads := stb.reads + stb.buffer.length,
                     length := stb.length + stb.buffer.sum }
        if stb.buffer.isEmpty then
          readLoop recv closable rest { st2 with waiting := false }
        else
          let i := st2.index
          let cbDelay := if i = 0 then none else some (st2.clock - st2.cbTime)
          let st3 : RState :=
            { st2 with clock := st2.clock + 1, cbTime := st2.clock,
                       index := st2.index + 1 }
          match recv i stb.buffer cbDelay with
          | .thrown e =>
            let r := readFail st3 e
            ⟨r.out, r.final, r.log, [.pull i, .consSync i]⟩
          | .promErr e =>
            let r := readFail st3 e
            ⟨r.out, r.final, r.log, [.pull i, .consAsync i, .consSettle i]⟩
          | .value =>
            let r := readLoop recv closable rest { st3 with waiting := false }
            ⟨r.out, r.final, r.log, .pull i :: .consSync i :: r.trace⟩
          | .promOk =>
            let r := readLoop recv closable rest { st3 with waiting := false }
            ⟨r.out, r.final, r.log,
              .pull i :: .consAsync i :: .consSettle i :: r.trace⟩
    | .endEv => if closable then readLoop recv closable rest st else readSuccess st
    | .closeEv => readSuccess st
    | .errorEv e => readFail st e

/-- A whole `read` run: fresh counters and flags, empty buffer, the
four listeners attached, clock at 0. -/
def readRun (recv : Nat → List Nat → Option Nat → DRes) (closable : Bool)
    (events : List SEv) : ReadRun :=
  readLoop recv closable events
    ⟨0, 0, 0, false, false, false, [], registerAll, 0, 0⟩

/-- The public `read(stream, receiver, closable, readSize)` entry:
throws `Invalid stream receiver.` when the receiver is not a function,
otherwise runs the session on the stream's events (the
`isReadableStream` check on the stream object itself has no
counterpart here, streams being embedded by their event lists; the
`readSize` normalization only affects the chunk granularity, which is
part of the event input). -/
def read (events : List SEv)
    (receiver : FnArg (Nat → List Nat → Option Nat → DRes))
    (closable : Bool) : Except String ReadRun :=
  match receiver with
  | .nonFn _ => .error ("Invalid stream receiver.")
  | .fn r => .ok (readRun r closable events)

/-! ## Theorems -/

section Claims

/-- C3 counterexample: the claim says every callable produced by
continued unwrapping after the first is invoked with no arguments, but
`resolve` never clears `params`, so the inner callable of `c3chain`
receives the original argument `7` and returns it; under the spec's
wording (`resolveSpecFuel`) it would receive no arguments and return
`undefined`. -/
theorem c3_counterexample :
    resolveFuel 4 c3chain (some [JsVal.num 7]) false =
      ROutcome.success (JsVal.num 7) false ∧
    resolveSpecFuel 4 c3chain (some [JsVal.num 7]) false =
      ROutcome.success JsVal.undef false :=
  ⟨rfl, rfl⟩

/-- C3 (amended): in `resolve(value, args, onSuccess, onError)`, every
callable met during unwrapping — the first as well as every further
one, including callables obtained after a promise resolution — is
invoked with the supplied argument list (with no arguments only when
no argument list was supplied): every argument list recorded by the
instrumented resolver equals `params.getD []`, and the instrumented
resolver computes the same outcome as the plain one. -/
theorem c3_params_every_call (fuel : Nat) (m : Mixed)
    (params : Option (List JsVal)) (delayed : Bool) :
    (resolveTrace fuel m params delayed).1 = resolveFuel fuel m params delayed ∧
    ∀ a ∈ (resolveTrace fuel m params delayed).2, a = params.getD [] := by
  induction fuel generalizing m delayed with
  | zero => exact ⟨rfl, by intro a ha; simp [resolveTrace] at ha⟩
  | succ fuel ih =>
    match m with
    | .val v => exact ⟨rfl, by intro a ha; simp [resolveTrace] at ha⟩
    | .prom (.error e) => exact ⟨rfl, by intro a ha; simp [resolveTrace] at ha⟩
    | .prom (.ok m') =>
      simpa [resolveTrace, resolveFuel] using ih m' true
    | .fn f =>
      cases h : f (params.getD []) with
      | error e =>
        refine ⟨by simp [resolveTrace, resolveFuel, h], ?_⟩
        intro a ha
        simp [resolveTrace, h] at ha
        exact ha
      | ok m' =>
        refine ⟨by simp [resolveTrace, resolveFuel, h, (ih m' delayed).1], ?_⟩
        intro a ha
        simp [resolveTrace, h] at ha
        rcases ha with rfl | ha
        · rfl
        · exact (ih m' delayed).2 a ha

/-- C3 witness: in the concrete run on `c3chain` the second recorded
argument list is the original one, as the amended claim states. -/
theorem c3_params_every_call_witness :
    (resolveTrace 4 c3chain (some [JsVal.num 7]) false).2 =
      [[JsVal.num 7], [JsVal.num 7]] ∧
    [JsVal.num 7] = (some [JsVal.num 7] : Option (List JsVal)).getD [] := by
  refine ⟨rfl, ?_⟩
  refine (c3_params_every_call 4 c3chain (some [JsVal.num 7]) false).2 [JsVal.num 7] ?_
  rw [show (resolveTrace 4 c3chain (some [JsVal.num 7]) false).2 =
      [[JsVal.num 7], [JsVal.num 7]] from rfl]
  exact List.mem_cons_self _ _

/-- A source whose first resolution fails. -/
def c2src : Nat → JsVal → Option Nat → PullRes :=
  fun _ _ _ => .err (.str ("boom"))

/-- C2 counterexample: a sequence whose source fails at index 0
rejects with the plain record `{index: 0, error: "boom",
source: undefined}`; no `getError` accessor is attached to it
(`hasGetError = false`), contradicting the claim that every failure
record of `sequence` exposes `getError()`. -/
theorem c2_counterexample :
    (seqRun c2src none 0 false 5).out =
      SeqOutcome.err ⟨0, RejectBody.src (.str ("boom")) .undef, false⟩ ∧
    (Reject.mk 0 (RejectBody.src (.str ("boom")) .undef) false).hasGetError = false :=
  ⟨rfl, rfl⟩

/-- Holds of a sequence outcome when any rejection record it carries
lacks the `getError` accessor. -/
def noGetErrorOut : SeqOutcome → Prop
  | .err r => r.hasGetError = false
  | _ => True

/-- Every rejection record a sequence run can produce is a plain
object literal without a `getError` accessor. -/
theorem seqLoop_err_hasGetError (src : Nat → JsVal → Option Nat → PullRes)
    (dest : Option (Nat → JsVal → Option Nat → DRes)) (limit : Nat) (track : Bool) :
    ∀ fuel st, noGetErrorOut (seqLoop src dest limit track fuel st).out := by
  intro fuel
  induction fuel with
  | zero => intro st; simp [seqLoop, noGetErrorOut]
  | succ fuel ih =>
    intro st
    rw [seqLoop]
    repeat' split
    all_goals simp only [noGetErrorOut]
    all_goals first
      | trivial
      | exact ih _

/-- C2 (amended): every failure record with which `sequence` rejects
(both the source-side shape `{index, error, source}` and the
destination-side shape `{index, error, dest}`) is a plain object
without a `getError()` accessor; the uniform `getError()` accessor
exists only on the page driver's failure records. -/
theorem c2_sequence_no_getError (src : Nat → JsVal → Option Nat → PullRes)
    (dest : Option (Nat → JsVal → Option Nat → DRes))
    (limit : Nat) (track : Bool) (fuel : Nat) (r : Reject)
    (h : (seqRun src dest limit track fuel).out = .err r) :
    r.hasGetError = false := by
  have hn := seqLoop_err_hasGetError src dest limit track fuel
    ⟨0, .undef, 0, 0, [], 0⟩
  rw [show seqLoop src dest limit track fuel ⟨0, .undef, 0, 0, [], 0⟩ =
      seqRun src dest limit track fuel from rfl, h] at hn
  exact hn

/-- C2 witness: the amended claim applied to the concrete failing
sequence run. -/
theorem c2_sequence_no_getError_witness :
    (Reject.mk 0 (RejectBody.src (.str ("boom")) .undef) false).hasGetError = false :=
  c2_sequence_no_getError c2src none 0 false 5
    ⟨0, RejectBody.src (.str ("boom")) .undef, false⟩ rfl

/-- A sequence run without a destination never invokes one. -/
theorem seqLoop_none_destCalls (src : Nat → JsVal → Option Nat → PullRes)
    (limit : Nat) (track : Bool) :
    ∀ fuel st, (seqLoop src none limit track fuel st).destCalls = 0 := by
  intro fuel
  induction fuel with
  | zero => intro st; rfl
  | succ fuel ih =>
    intro st
    rw [seqLoop]
    repeat' split
    all_goals simp_all [ih]

/-- C10: for every `dest` argument to `sequence` that is not a
function (numbers, strings, or any other plain value), the call
throws no validation error — it returns the result of the loop, not
the `Invalid sequence source.` throw, which only guards `source`;
the destination is normalized away (`wrap` returns `null`), it is
never invoked (`destCalls = 0`), and the outcome equals that of the
same call with the destination left `undefined`. -/
theorem c10_nonFunction_dest (s : Nat → JsVal → Option Nat → PullRes)
    (v : JsVal) (limit : Nat) (track : Bool) (fuel : Nat) :
    sequence (.fn s) (.nonFn v) limit track fuel =
      Except.ok (seqRun s none limit track fuel) ∧
    sequence (.fn s) (.nonFn v) limit track fuel =
      sequence (.fn s) (.nonFn .undef) limit track fuel ∧
    (seqRun s none limit track fuel).destCalls = 0 :=
  ⟨rfl, rfl, seqLoop_none_destCalls s limit track fuel _⟩

/-- Holds of a page outcome when any rejection record it carries has
the `getError` accessor attached. -/
def getErrorOutP : PageOutcome → Prop
  | .err r => r.hasGetError = true
  | _ => True

/-- Every rejection record a page run can produce goes through `fail`
and therefore carries the `getError` accessor. -/
theorem pageLoop_err_hasGetError (src : Nat → JsVal → Option Nat → PullRes)
    (dest : Option (Nat → List JsVal → Option Nat → DRes))
    (batch : List JsVal → BatchRes) (limit : Nat) :
    ∀ fuel st, getErrorOutP (pageLoop src dest batch limit fuel st).out := by
  intro fuel
  induction fuel with
  | zero => intro st; simp [pageLoop, getErrorOutP]
  | succ fuel ih =>
    intro st
    rw [pageLoop]
    repeat' split
    all_goals simp only [getErrorOutP, pageFail]
    all_goals first
      | trivial
      | exact ih _

/-- C7: every rejection produced by `page` carries the `getError`
accessor, and that accessor returns the first individual item error
(`data.getErrors()[0]`) on a normal reject (one carrying a `data`
field from a failed batch resolution) and the `error` value directly
on an internal reject (source-side or destination-side). -/
theorem c7_page_getError (src : Nat → JsVal → Option Nat → PullRes)
    (dest : Option (Nat → List JsVal → Option Nat → DRes))
    (batch : List JsVal → BatchRes) (limit fuel : Nat) (r : Reject)
    (h : (pageRun src dest batch limit fuel).out = .err r) :
    r.hasGetError = true ∧
    (∀ d, r.body = .dat d → ∀ hne : d.errors ≠ [],
      fail_getError r = d.errors.head hne) ∧
    (∀ e s, r.body = .src e s → fail_getError r = e) ∧
    (∀ e v, r.body = .dst e v → fail_getError r = e) := by
  refine ⟨?_, ?_, ?_, ?_⟩
  · have hp := pageLoop_err_hasGetError src dest batch limit fuel ⟨0, .undef, 0, 0, 0, 0⟩
    rw [show pageLoop src dest batch limit fuel ⟨0, .undef, 0, 0, 0, 0⟩ =
        pageRun src dest batch limit fuel from rfl, h] at hp
    exact hp
  · intro d hd hne
    obtain ⟨a, l, herr⟩ := List.exists_cons_of_ne_nil hne
    simp [fail_getError, hd, herr]
  · intro e s hs
    simp [fail_getError, hs]
  · intro e v hv
    simp [fail_getError, hv]

/-- A page source whose every page fails batch resolution. -/
def c7src : Nat → JsVal → Option Nat → PullRes :=
  fun _ _ _ => .ok (.arr [.num 1]) false

/-- A batch operation rejecting with two item errors. -/
def c7batch : List JsVal → BatchRes :=
  fun _ => .err ⟨[.str ("e1"), .str ("e2")]⟩

/-- C7 witness: on the concrete batch-failing page run, the reject
record has the accessor and `getError()` returns the first item
error. -/
theorem c7_page_getError_witness :
    (pageFail 0 (.dat ⟨[JsVal.str ("e1"), JsVal.str ("e2")]⟩)).hasGetError = true ∧
    fail_getError (pageFail 0 (.dat ⟨[JsVal.str ("e1"), JsVal.str ("e2")]⟩)) =
      .str ("e1") := by
  have hc := c7_page_getError c7src none c7batch 0 5
    (pageFail 0 (.dat ⟨[.str ("e1"), .str ("e2")]⟩)) rfl
  refine ⟨hc.1, ?_⟩
  simpa using hc.2.1 ⟨[.str ("e1"), .str ("e2")]⟩ rfl (by simp)

/-- If the source yields batch-resolvable arrays below index `k` and a
value that is neither `undefined` nor an array at index `k`, the page
loop, started anywhere below `k` with the matching `request` value,
fails at index `k` with the `Unexpected data` record carrying the
previous batch-resolved page, after exactly the remaining source
calls. -/
theorem pageLoop_unexpected (src : Nat → JsVal → Option Nat → PullRes)
    (dest : Option (Nat → List JsVal → Option Nat → DRes))
    (batch : List JsVal → BatchRes) (limit : Nat)
    (ps qs : Nat → List JsVal) (dl : Nat → Bool)
    (k : Nat) (bad : JsVal) (bdl : Bool)
    (hsrc : ∀ i r t, i < k → src i r t = .ok (.arr (ps i)) (dl i))
    (hbatch : ∀ i, i < k → batch (ps i) = .ok (qs i))
    (hdest : ∀ g, dest = some g → ∀ i v t, g i v t = DRes.value ∨ g i v t = DRes.promOk)
    (hbad : ∀ r t, src k r t = .ok bad bdl)
    (hbadU : bad.isUndef = false) (hbadA : bad.isArr = false)
    (hlim : limit = 0 ∨ k < limit) :
    ∀ j fuel st, st.idx + j = k → j < fuel →
      st.request = (if st.idx = 0 then JsVal.undef else .arr (qs (st.idx - 1))) →
      pageLoop src dest batch limit fuel st =
        ⟨.err (pageFail k (.src (.str ("Unexpected data returned from the source."))
            (if k = 0 then JsVal.undef else .arr (qs (k - 1))))), j + 1⟩ := by
  intro j
  induction j with
  | zero =>
    intro fuel st hidx hfuel hreq
    obtain ⟨fuel', rfl⟩ : ∃ m, fuel = m + 1 := ⟨fuel - 1, by omega⟩
    have hk : st.idx = k := by omega
    rw [pageLoop, hk, hbad st.request _]
    rw [hk] at hreq
    cases bad with
    | undef => simp [JsVal.isUndef] at hbadU
    | arr xs => simp [JsVal.isArr] at hbadA
    | num n => simp [JsVal.isUndef, hreq]
    | str s => simp [JsVal.isUndef, hreq]
    | boolV b => simp [JsVal.isUndef, hreq]
  | succ j ih =>
    intro fuel st hidx hfuel hreq
    obtain ⟨fuel', rfl⟩ : ∃ m, fuel = m + 1 := ⟨fuel - 1, by omega⟩
    have hlt : st.idx < k := by omega
    have hnl : limit ≠ st.idx + 1 := by omega
    rw [pageLoop, hsrc st.idx st.request _ hlt]
    rcases dest with _ | g
    · simp only [JsVal.isUndef, Bool.false_eq_true, if_false, hbatch st.idx hlt,
        if_neg hnl]
      rw [ih fuel' _ (by show st.idx + 1 + j = k; omega) (by omega)
        (by show JsVal.arr (qs st.idx) = _; simp)]
    · rcases hdest g rfl st.idx (qs st.idx)
        (if st.idx = 0 then none else some (st.clock + 1 - st.destTime)) with hg | hg <;>
      · simp only [JsVal.isUndef, Bool.false_eq_true, if_false, hbatch st.idx hlt,
          hg, if_neg hnl]
        rw [ih fuel' _ (by show st.idx + 1 + j = k; omega) (by omega)
          (by show JsVal.arr (qs st.idx) = _; simp)]

/-- C6: when the page source resolves at index `k` to a value that is
neither `undefined` nor an array, `page` rejects with
`{index: k, error: "Unexpected data returned from the source.",
source: previousData}` where `previousData` is the batch-resolved
previous page (`undefined` when `k = 0`), the record carrying the
`getError` accessor, and the loop terminates with exactly `k + 1`
source calls — none after the failing one. -/
theorem c6_page_unexpected (src : Nat → JsVal → Option Nat → PullRes)
    (dest : Option (Nat → List JsVal → Option Nat → DRes))
    (batch : List JsVal → BatchRes) (limit : Nat)
    (ps qs : Nat → List JsVal) (dl : Nat → Bool)
    (k : Nat) (bad : JsVal) (bdl : Bool) (fuel : Nat)
    (hsrc : ∀ i r t, i < k → src i r t = .ok (.arr (ps i)) (dl i))
    (hbatch : ∀ i, i < k → batch (ps i) = .ok (qs i))
    (hdest : ∀ g, dest = some g → ∀ i v t, g i v t = DRes.value ∨ g i v t = DRes.promOk)
    (hbad : ∀ r t, src k r t = .ok bad bdl)
    (hbadU : bad.isUndef = false) (hbadA : bad.isArr = false)
    (hlim : limit = 0 ∨ k < limit) (hfuel : k < fuel) :
    pageRun src dest batch limit fuel =
      ⟨.err (pageFail k (.src (.str ("Unexpected data returned from the source."))
          (if k = 0 then JsVal.undef else .arr (qs (k - 1))))), k + 1⟩ :=
  pageLoop_unexpected src dest batch limit ps qs dl k bad bdl
    hsrc hbatch hdest hbad hbadU hbadA hlim k fuel
    ⟨0, .undef, 0, 0, 0, 0⟩ (by show 0 + k = k; omega) hfuel
    (by show JsVal.undef = _; simp)

/-- A page source producing the page `[1]` at index 0 and the plain
number `5` at index 1. -/
def c6src : Nat → JsVal → Option Nat → PullRes :=
  fun i _ _ => if i = 0 then .ok (.arr [.num 1]) false else .ok (.num 5) false

/-- A batch operation resolving every page to itself. -/
def c6batch : List JsVal → BatchRes := fun xs => .ok xs

/-- C6 witness: the concrete run fails at index 1 with the
`Unexpected data` record carrying page 0's resolved data, after
exactly two source calls. -/
theorem c6_page_unexpected_witness :
    pageRun c6src none c6batch 0 5 =
      ⟨.err (pageFail 1 (.src (.str ("Unexpected data returned from the source."))
          (.arr [.num 1]))), 2⟩ := by
  have hc := c6_page_unexpected c6src none c6batch 0
    (fun _ => [JsVal.num 1]) (fun _ => [JsVal.num 1]) (fun _ => false)
    1 (.num 5) false 5
    (by intro i r t hi; interval_cases i; rfl)
    (by intro i hi; rfl)
    (by intro g hg; cases hg)
    (by intro r t; rfl)
    rfl rfl (Or.inl rfl) (by omega)
  simpa using hc

/-- If the source yields the non-`undefined` values `f i` below `N`
and `undefined` at `N`, and the destination (when present) never
fails, the sequence loop started anywhere at or below `N` finishes
successfully, accumulating exactly the remaining values. -/
theorem seqLoop_run_ok (src : Nat → JsVal → Option Nat → PullRes)
    (dest : Option (Nat → JsVal → Option Nat → DRes)) (track : Bool)
    (N : Nat) (f : Nat → JsVal) (dl : Nat → Bool)
    (hsrc : ∀ i d t, i ≤ N → src i d t = .ok (f i) (dl i))
    (hf : ∀ i, i < N → (f i).isUndef = false)
    (hN : (f N).isUndef = true)
    (hdest : ∀ g, dest = some g → ∀ i v t, g i v t = DRes.value ∨ g i v t = DRes.promOk) :
    ∀ k fuel st, st.idx + k = N → k < fuel →
      ∃ dur, (seqLoop src dest 0 track fuel st).out =
        .ok (mkSeqResult track (st.acc ++ (List.range' st.idx k).map f) N dur) := by
  intro k
  induction k with
  | zero =>
    intro fuel st hidx hfuel
    obtain ⟨fuel', rfl⟩ : ∃ m, fuel = m + 1 := ⟨fuel - 1, by omega⟩
    have hk : st.idx = N := by omega
    refine ⟨st.clock + 1, ?_⟩
    rw [seqLoop, hk, hsrc N st.data _ (le_refl N)]
    simp [hN]
  | succ k ih =>
    intro fuel st hidx hfuel
    obtain ⟨fuel', rfl⟩ : ∃ m, fuel = m + 1 := ⟨fuel - 1, by omega⟩
    have hlt : st.idx < N := by omega
    rw [seqLoop, hsrc st.idx st.data _ (by omega)]
    have hfv := hf st.idx hlt
    rcases dest with _ | g
    · simp only [hfv, Bool.false_eq_true, if_false, if_neg (by omega : ¬(0 = st.idx + 1))]
      obtain ⟨dur, hdur⟩ := ih fuel'
        ⟨st.idx + 1, f st.idx, st.clock, st.destTime,
          (if track then st.acc ++ [f st.idx] else st.acc), st.clock + 1⟩
        (by show st.idx + 1 + k = N; omega) (by omega)
      refine ⟨dur, ?_⟩
      show (seqLoop src none 0 track fuel'
        ⟨st.idx + 1, f st.idx, st.clock, st.destTime,
          (if track then st.acc ++ [f st.idx] else st.acc), st.clock + 1⟩).out = _
      rw [hdur]
      cases track <;> simp [mkSeqResult, List.range'_succ]
    · rcases hdest g rfl st.idx (f st.idx)
        (if st.idx = 0 then none else some (st.clock + 1 - st.destTime)) with hg | hg <;>
      · simp only [hfv, Bool.false_eq_true, if_false, hg,
          if_neg (by omega : ¬(0 = st.idx + 1))]
        obtain ⟨dur, hdur⟩ := ih fuel'
          ⟨st.idx + 1, f st.idx, st.clock, st.clock + 1,
            (if track then st.acc ++ [f st.idx] else st.acc), st.clock + 2⟩
          (by show st.idx + 1 + k = N; omega) (by omega)
        refine ⟨dur, ?_⟩
        show (seqLoop src (some g) 0 track fuel'
          ⟨st.idx + 1, f st.idx, st.clock, st.clock + 1,
            (if track then st.acc ++ [f st.idx] else st.acc), st.clock + 2⟩).out = _
        rw [hdur]
        cases track <;> simp [mkSeqResult, List.range'_succ]

/-- C1: for every source that produces exactly `N` non-`undefined`
concrete values at indices `0..N-1` and `undefined` at index `N`, with
`limit` unset (0) and a never-failing (or absent) destination,
`sequence` resolves: with `track` false it resolves with an object
whose `total` equals `N` (and a `duration` field), and with `track`
true it resolves with the array of the `N` resolved values in
production order, annotated with the non-enumerable `duration`
property (the `tracked` result's separate field). -/
theorem c1_sequence_resolves (src : Nat → JsVal → Option Nat → PullRes)
    (dest : Option (Nat → JsVal → Option Nat → DRes))
    (N : Nat) (f : Nat → JsVal) (dl : Nat → Bool) (fuel : Nat)
    (hsrc : ∀ i d t, i ≤ N → src i d t = .ok (f i) (dl i))
    (hf : ∀ i, i < N → (f i).isUndef = false)
    (hN : (f N).isUndef = true)
    (hdest : ∀ g, dest = some g → ∀ i v t, g i v t = DRes.value ∨ g i v t = DRes.promOk)
    (hfuel : N < fuel) :
    (∃ dur, (seqRun src dest 0 false fuel).out = .ok (.untracked N dur)) ∧
    (∃ dur, (seqRun src dest 0 true fuel).out = .ok (.tracked ((List.range N).map f) dur)) := by
  constructor
  · obtain ⟨dur, h⟩ := seqLoop_run_ok src dest false N f dl hsrc hf hN hdest N fuel
      ⟨0, .undef, 0, 0, [], 0⟩ (by show 0 + N = N; omega) hfuel
    exact ⟨dur, by simpa [seqRun, mkSeqResult] using h⟩
  · obtain ⟨dur, h⟩ := seqLoop_run_ok src dest true N f dl hsrc hf hN hdest N fuel
      ⟨0, .undef, 0, 0, [], 0⟩ (by show 0 + N = N; omega) hfuel
    exact ⟨dur, by simpa [seqRun, mkSeqResult, List.range_eq_range'] using h⟩

/-- The value sequence 1, 2, then `undefined`. -/
def c1vals : Nat → JsVal := fun i => if 2 ≤ i then .undef else .num (i + 1)

/-- A source producing `c1vals`. -/
def c1src : Nat → JsVal → Option Nat → PullRes := fun i _ _ => .ok (c1vals i) false

/-- C1 witness: the concrete two-value source resolves with
`total = 2` untracked and with the two values tracked. -/
theorem c1_sequence_resolves_witness :
    (∃ dur, (seqRun c1src none 0 false 3).out = .ok (.untracked 2 dur)) ∧
    (∃ dur, (seqRun c1src none 0 true 3).out =
      .ok (.tracked ((List.range 2).map c1vals) dur)) :=
  c1_sequence_resolves c1src none 2 c1vals (fun _ => false) 3
    (fun _ _ _ _ => rfl)
    (by intro i hi; interval_cases i <;> rfl)
    rfl
    (by intro g hg; cases hg)
    (by omega)

/-- With a positive limit `L`, a source good for at least the
remaining indices and a never-failing destination, the sequence loop
finishes at the limit, accumulating exactly the remaining values and
invoking the source exactly once per remaining index. -/
theorem seqLoop_limit_ok (src : Nat → JsVal → Option Nat → PullRes)
    (dest : Option (Nat → JsVal → Option Nat → DRes)) (track : Bool)
    (L : Nat) (f : Nat → JsVal) (dl : Nat → Bool)
    (hsrc : ∀ i d t, i < L → src i d t = .ok (f i) (dl i))
    (hf : ∀ i, i < L → (f i).isUndef = false)
    (hdest : ∀ g, dest = some g → ∀ i v t, g i v t = DRes.value ∨ g i v t = DRes.promOk) :
    ∀ k fuel st, st.idx + k + 1 = L → k + 1 ≤ fuel →
      (∃ dur, (seqLoop src dest L track fuel st).out =
        .ok (mkSeqResult track (st.acc ++ (List.range' st.idx (k + 1)).map f) L dur)) ∧
      (seqLoop src dest L track fuel st).srcCalls = k + 1 := by
  intro k
  induction k with
  | zero =>
    intro fuel st hidx hfuel
    obtain ⟨fuel', rfl⟩ : ∃ m, fuel = m + 1 := ⟨fuel - 1, by omega⟩
    have hlt : st.idx < L := by omega
    have hfv := hf st.idx hlt
    rw [seqLoop, hsrc st.idx st.data _ hlt]
    rcases dest with _ | g
    · simp only [hfv, Bool.false_eq_true, if_false, if_pos hidx.symm]
      refine ⟨⟨st.clock + 1, ?_⟩, by trivial⟩
      rw [← hidx]
      cases track <;> simp [mkSeqResult, List.range'_succ]
    · rcases hdest g rfl st.idx (f st.idx)
        (if st.idx = 0 then none else some (st.clock + 1 - st.destTime)) with hg | hg <;>
      · simp only [hfv, Bool.false_eq_true, if_false, hg, if_pos hidx.symm]
        refine ⟨⟨st.clock + 2, ?_⟩, by trivial⟩
        rw [← hidx]
        cases track <;> simp [mkSeqResult, List.range'_succ]
  | succ k ih =>
    intro fuel st hidx hfuel
    obtain ⟨fuel', rfl⟩ : ∃ m, fuel = m + 1 := ⟨fuel - 1, by omega⟩
    have hlt : st.idx < L := by omega
    have hne : L ≠ st.idx + 1 := by omega
    have hfv := hf st.idx hlt
    rw [seqLoop, hsrc st.idx st.data _ hlt]
    rcases dest with _ | g
    · simp only [hfv, Bool.false_eq_true, if_false, if_neg hne]
      obtain ⟨⟨dur, hout⟩, hcalls⟩ := ih fuel'
        ⟨st.idx + 1, f st.idx, st.clock, st.destTime,
          (if track then st.acc ++ [f st.idx] else st.acc), st.clock + 1⟩
        (by show st.idx + 1 + k + 1 = L; omega) (by omega)
      refine ⟨⟨dur, ?_⟩, ?_⟩
      · show (seqLoop src none L track fuel'
          ⟨st.idx + 1, f st.idx, st.clock, st.destTime,
            (if track then st.acc ++ [f st.idx] else st.acc), st.clock + 1⟩).out = _
        rw [hout]
        cases track <;> simp [mkSeqResult, List.range'_succ]
      · show (seqLoop src none L track fuel'
          ⟨st.idx + 1, f st.idx, st.clock, st.destTime,
            (if track then st.acc ++ [f st.idx] else st.acc), st.clock + 1⟩).srcCalls + 1 = _
        rw [hcalls]
    · rcases hdest g rfl st.idx (f st.idx)
        (if st.idx = 0 then none else some (st.clock + 1 - st.destTime)) with hg | hg <;>
      · simp only [hfv, Bool.false_eq_true, if_false, hg, if_neg hne]
        obtain ⟨⟨dur, hout⟩, hcalls⟩ := ih fuel'
          ⟨st.idx + 1, f st.idx, st.clock, st.clock + 1,
            (if track then st.acc ++ [f st.idx] else st.acc), st.clock + 2⟩
          (by show st.idx + 1 + k + 1 = L; omega) (by omega)
        refine ⟨⟨dur, ?_⟩, ?_⟩
        · show (seqLoop src (some g) L track fuel'
            ⟨st.idx + 1, f st.idx, st.clock, st.clock + 1,
              (if track then st.acc ++ [f st.idx] else st.acc), st.clock + 2⟩).out = _
          rw [hout]
          cases track <;> simp [mkSeqResult, List.range'_succ]
        · show (seqLoop src (some g) L track fuel'
            ⟨st.idx + 1, f st.idx, st.clock, st.clock + 1,
              (if track then st.acc ++ [f st.idx] else st.acc), st.clock + 2⟩).srcCalls + 1 = _
          rw [hcalls]

/-- With a positive limit `L`, a source producing batch-resolvable
pages for at least the remaining indices and a never-failing
destination, the page loop finishes at the limit with `pages = L`,
invoking the source exactly once per remaining index. -/
theorem pageLoop_limit_ok (src : Nat → JsVal → Option Nat → PullRes)
    (dest : Option (Nat → List JsVal → Option Nat → DRes))
    (batch : List JsVal → BatchRes) (L : Nat)
    (ps qs : Nat → List JsVal) (dl : Nat → Bool)
    (hsrc : ∀ i r t, i < L → src i r t = .ok (.arr (ps i)) (dl i))
    (hbatch : ∀ i, i < L → batch (ps i) = .ok (qs i))
    (hdest : ∀ g, dest = some g → ∀ i v t, g i v t = DRes.value ∨ g i v t = DRes.promOk) :
    ∀ k fuel st, st.idx + k + 1 = L → k + 1 ≤ fuel →
      (∃ total dur, (pageLoop src dest batch L fuel st).out = .ok ⟨L, total, dur⟩) ∧
      (pageLoop src dest batch L fuel st).srcCalls = k + 1 := by
  intro k
  induction k with
  | zero =>
    intro fuel st hidx hfuel
    obtain ⟨fuel', rfl⟩ : ∃ m, fuel = m + 1 := ⟨fuel - 1, by omega⟩
    have hlt : st.idx < L := by omega
    rw [pageLoop, hsrc st.idx st.request _ hlt]
    rcases dest with _ | g
    · simp only [JsVal.isUndef, Bool.false_eq_true, if_false,
        hbatch st.idx hlt, if_pos hidx.symm]
      exact ⟨⟨st.total + (qs st.idx).length, st.clock + 1, by rw [← hidx]⟩, by trivial⟩
    · rcases hdest g rfl st.idx (qs st.idx)
        (if st.idx = 0 then none else some (st.clock + 1 - st.destTime)) with hg | hg <;>
      · simp only [JsVal.isUndef, Bool.false_eq_true, if_false,
          hbatch st.idx hlt, hg, if_pos hidx.symm]
        exact ⟨⟨st.total + (qs st.idx).length, st.clock + 2, by rw [← hidx]⟩, by trivial⟩
  | succ k ih =>
    intro fuel st hidx hfuel
    obtain ⟨fuel', rfl⟩ : ∃ m, fuel = m + 1 := ⟨fuel - 1, by omega⟩
    have hlt : st.idx < L := by omega
    have hne : L ≠ st.idx + 1 := by omega
    rw [pageLoop, hsrc st.idx st.request _ hlt]
    rcases dest with _ | g
    · simp only [JsVal.isUndef, Bool.false_eq_true, if_false,
        hbatch st.idx hlt, if_neg hne]
      obtain ⟨⟨total, dur, hout⟩, hcalls⟩ := ih fuel'
        ⟨st.idx + 1, .arr (qs st.idx), st.total + (qs st.idx).length,
          st.clock, st.destTime, st.clock + 1⟩
        (by show st.idx + 1 + k + 1 = L; omega) (by omega)
      exact ⟨⟨total, dur, hout⟩, by
        show (pageLoop src none batch L fuel' _).srcCalls + 1 = _
        rw [hcalls]⟩
    · rcases hdest g rfl st.idx (qs st.idx)
        (if st.idx = 0 then none else some (st.clock + 1 - st.destTime)) with hg | hg <;>
      · simp only [JsVal.isUndef, Bool.false_eq_true, if_false,
          hbatch st.idx hlt, hg, if_neg hne]
        obtain ⟨⟨total, dur, hout⟩, hcalls⟩ := ih fuel'
          ⟨st.idx + 1, .arr (qs st.idx), st.total + (qs st.idx).length,
            st.clock, st.clock + 1, st.clock + 2⟩
          (by show st.idx + 1 + k + 1 = L; omega) (by omega)
        exact ⟨⟨total, dur, hout⟩, by
          show (pageLoop src (some g) batch L fuel' _).srcCalls + 1 = _
          rw [hcalls]⟩

/-- C4: for every limit `L` with `0 < L` not exceeding what the
source can produce, and a never-failing (or absent) destination,
`sequence(source, dest, L, track)` and `page(source, dest, L)`
resolve successfully after exactly `L` source iterations — the source
is invoked exactly `L` times and the success result reports `L`
items/pages — regardless of how many further values the source could
produce. -/
theorem c4_limit_exact (src : Nat → JsVal → Option Nat → PullRes)
    (dest : Option (Nat → JsVal → Option Nat → DRes)) (track : Bool)
    (psrc : Nat → JsVal → Option Nat → PullRes)
    (pdest : Option (Nat → List JsVal → Option Nat → DRes))
    (batch : List JsVal → BatchRes)
    (L : Nat) (f : Nat → JsVal) (dl : Nat → Bool)
    (ps qs : Nat → List JsVal) (pdl : Nat → Bool) (fuel : Nat)
    (hL : 0 < L)
    (hsrc : ∀ i d t, i < L → src i d t = .ok (f i) (dl i))
    (hf : ∀ i, i < L → (f i).isUndef = false)
    (hdest : ∀ g, dest = some g → ∀ i v t, g i v t = DRes.value ∨ g i v t = DRes.promOk)
    (hpsrc : ∀ i r t, i < L → psrc i r t = .ok (.arr (ps i)) (pdl i))
    (hbatch : ∀ i, i < L → batch (ps i) = .ok (qs i))
    (hpdest : ∀ g, pdest = some g → ∀ i v t, g i v t = DRes.value ∨ g i v t = DRes.promOk)
    (hfuel : L ≤ fuel) :
    ((seqRun src dest L track fuel).srcCalls = L ∧
      ∃ dur, (seqRun src dest L track fuel).out =
        .ok (mkSeqResult track ((List.range L).map f) L dur)) ∧
    ((pageRun psrc pdest batch L fuel).srcCalls = L ∧
      ∃ total dur, (pageRun psrc pdest batch L fuel).out = .ok ⟨L, total, dur⟩) := by
  obtain ⟨L', rfl⟩ : ∃ m, L = m + 1 := ⟨L - 1, by omega⟩
  obtain ⟨⟨dur, hout⟩, hcalls⟩ := seqLoop_limit_ok src dest track (L' + 1) f dl
    hsrc hf hdest L' fuel ⟨0, .undef, 0, 0, [], 0⟩ (by show 0 + L' + 1 = L' + 1; omega)
    (by omega)
  obtain ⟨⟨total, pdur, hpout⟩, hpcalls⟩ := pageLoop_limit_ok psrc pdest batch (L' + 1)
    ps qs pdl hpsrc hbatch hpdest L' fuel ⟨0, .undef, 0, 0, 0, 0⟩
    (by show 0 + L' + 1 = L' + 1; omega) (by omega)
  refine ⟨⟨hcalls, dur, ?_⟩, hpcalls, total, pdur, hpout⟩
  rw [show seqRun src dest (L' + 1) track fuel =
    seqLoop src dest (L' + 1) track fuel ⟨0, .undef, 0, 0, [], 0⟩ from rfl, hout]
  simp [List.range_eq_range']

/-- An endless sequence source producing the constant value 7. -/
def c4src : Nat → JsVal → Option Nat → PullRes := fun _ _ _ => .ok (.num 7) false

/-- An endless page source producing the constant page `[1]`. -/
def c4psrc : Nat → JsVal → Option Nat → PullRes :=
  fun _ _ _ => .ok (.arr [.num 1]) false

/-- A batch operation resolving every page to itself. -/
def c4batch : List JsVal → BatchRes := fun xs => .ok xs

/-- C4 witness: with `L = 1`, both endless sources stop after exactly
one pull, with results reporting one item/page. -/
theorem c4_limit_exact_witness :
    ((seqRun c4src none 1 false 2).srcCalls = 1 ∧
      ∃ dur, (seqRun c4src none 1 false 2).out =
        .ok (mkSeqResult false ((List.range 1).map (fun _ => JsVal.num 7)) 1 dur)) ∧
    ((pageRun c4psrc none c4batch 1 2).srcCalls = 1 ∧
      ∃ total dur, (pageRun c4psrc none c4batch 1 2).out = .ok ⟨1, total, dur⟩) :=
  c4_limit_exact c4src none false c4psrc none c4batch 1
    (fun _ => JsVal.num 7) (fun _ => false)
    (fun _ => [JsVal.num 1]) (fun _ => [JsVal.num 1]) (fun _ => false) 2
    (by omega)
    (fun _ _ _ _ => rfl) (fun _ _ => rfl) (by intro g hg; cases hg)
    (fun _ _ _ _ => rfl) (fun _ _ => rfl) (by intro g hg; cases hg)
    (by omega)

/-- Processing a block of `readable` events with non-empty chunk
lists and a never-failing receiver neither settles nor changes the
remaining run, except for advancing the counters: one receiver call
per event, one read per chunk, the chunk lengths added up. -/
theorem readLoop_readables (recv : Nat → List Nat → Option Nat → DRes)
    (closable : Bool) (rest : List SEv)
    (hrecv : ∀ i b t, recv i b t = DRes.value ∨ recv i b t = DRes.promOk) :
    ∀ (es : List (List Nat)) (st : RState),
      (∀ cs ∈ es, cs ≠ []) → st.buffer = [] → st.waiting = false →
      st.stop = false →
      ∃ st' : RState,
        (readLoop recv closable (es.map SEv.readable ++ rest) st).out =
          (readLoop recv closable rest st').out ∧
        (readLoop recv closable (es.map SEv.readable ++ rest) st).final =
          (readLoop recv closable rest st').final ∧
        (readLoop recv closable (es.map SEv.readable ++ rest) st).log =
          (readLoop recv closable rest st').log ∧
        st'.index = st.index + es.length ∧
        st'.reads = st.reads + (es.map List.length).sum ∧
        st'.length = st.length + (es.map List.sum).sum ∧
        st'.buffer = [] ∧ st'.waiting = false ∧ st'.stop = false ∧
        st'.listeners = st.listeners := by
  intro es
  induction es with
  | nil =>
    intro st _ hb hw hs
    exact ⟨st, rfl, rfl, rfl, by simp, by simp, by simp, hb, hw, hs, rfl⟩
  | cons cs es ih =>
    intro st hne hb hw hs
    have hcs : cs ≠ [] := hne cs (List.mem_cons_self cs es)
    obtain ⟨a, l, rfl⟩ := List.exists_cons_of_ne_nil hcs
    rw [List.map_cons, List.cons_append, readLoop]
    simp only [hb, hw, hs, List.nil_append, Bool.not_true, Bool.false_or,
      Bool.or_self, Bool.or_false, List.isEmpty_cons, Bool.false_eq_true,
      if_false]
    rcases hrecv st.index (a :: l)
        (if st.index = 0 then none else some (st.clock - st.cbTime)) with hg | hg <;>
    · rw [hg]
      obtain ⟨st', h1, h2, h3, hidx, hreads, hlen, hb', hw', hs', hl'⟩ :=
        ih { st with
              buffer := [], ready := false, waiting := false, stop := false,
              reads := st.reads + (a :: l).length,
              length := st.length + (a :: l).sum,
              clock := st.clock + 1, cbTime := st.clock,
              index := st.index + 1 }
          (fun c hc => hne c (List.mem_cons_of_mem _ hc)) rfl rfl rfl
      refine ⟨st', h1, h2, h3, ?_, ?_, ?_, hb', hw', hs', hl'⟩
      · rw [hidx]
        show st.index + 1 + es.length = st.index + ((a :: l) :: es).length
        simp only [List.length_cons]
        omega
      · rw [hreads]
        show st.reads + (a :: l).length + (List.map List.length es).sum =
          st.reads + (List.map List.length ((a :: l) :: es)).sum
        simp only [List.map_cons, List.sum_cons]
        omega
      · rw [hlen]
        show st.length + (a :: l).sum + (List.map List.sum es).sum =
          st.length + (List.map List.sum ((a :: l) :: es)).sum
        simp only [List.map_cons, List.sum_cons]
        omega

/-- A receiver that always returns a non-promise value. -/
def syncRecv : Nat → List Nat → Option Nat → DRes := fun _ _ _ => .value

/-- C5 counterexample: with `closable` unset, a stream that emits
`close` without ever emitting `end` still resolves — `onClose` calls
`success()` unconditionally — so resolution does not happen exactly on
the `end` event when `closable` is not set. -/
theorem c5_counterexample :
    (readRun syncRecv false [SEv.closeEv]).out = .ok ⟨0, 0, 0, 0⟩ ∧
    hasEnd [SEv.closeEv] = false :=
  ⟨rfl, rfl⟩

/-- C5 (amended): `read` resolves successfully on the stream's `end`
event when `closable` is not set and on the `close` event regardless
of `closable` (`end` is ignored when `closable` is set), and its
resolution value is `{calls, reads, length, duration}` where `calls`
is the number of receiver invocations, `reads` the number of
successful stream reads and `length` the total length of all chunks
read: for `readable` events carrying the non-empty chunk lists `es`
followed by the settling event, the record is
`⟨es.length, Σ chunk counts, Σ chunk lengths, duration⟩`. -/
theorem c5_read_settlement (recv : Nat → List Nat → Option Nat → DRes)
    (es : List (List Nat))
    (hrecv : ∀ i b t, recv i b t = DRes.value ∨ recv i b t = DRes.promOk)
    (hes : ∀ cs ∈ es, cs ≠ []) :
    (∃ dur, (readRun recv false (es.map SEv.readable ++ [SEv.endEv])).out =
      .ok ⟨es.length, (es.map List.length).sum, (es.map List.sum).sum, dur⟩) ∧
    (∃ dur, (readRun recv true (es.map SEv.readable ++ [SEv.closeEv])).out =
      .ok ⟨es.length, (es.map List.length).sum, (es.map List.sum).sum, dur⟩) ∧
    (∃ dur, (readRun recv false (es.map SEv.readable ++ [SEv.closeEv])).out =
      .ok ⟨es.length, (es.map List.length).sum, (es.map List.sum).sum, dur⟩) ∧
    (readRun recv true (es.map SEv.readable ++ [SEv.endEv])).out = .pending := by
  refine ⟨?_, ?_, ?_, ?_⟩
  · obtain ⟨st', h1, _, _, hidx, hreads, hlen, _, _, _, _⟩ :=
      readLoop_readables recv false [SEv.endEv] hrecv es
        ⟨0, 0, 0, false, false, false, [], registerAll, 0, 0⟩ hes rfl rfl rfl
    refine ⟨st'.clock, ?_⟩
    rw [show readRun recv false (es.map SEv.readable ++ [SEv.endEv]) =
        readLoop recv false (es.map SEv.readable ++ [SEv.endEv])
          ⟨0, 0, 0, false, false, false, [], registerAll, 0, 0⟩ from rfl, h1]
    show ROut.ok ⟨st'.index, st'.reads, st'.length, st'.clock⟩ = _
    rw [hidx, hreads, hlen]
    simp
  · obtain ⟨st', h1, _, _, hidx, hreads, hlen, _, _, _, _⟩ :=
      readLoop_readables recv true [SEv.closeEv] hrecv es
        ⟨0, 0, 0, false, false, false, [], registerAll, 0, 0⟩ hes rfl rfl rfl
    refine ⟨st'.clock, ?_⟩
    rw [show readRun recv true (es.map SEv.readable ++ [SEv.closeEv]) =
        readLoop recv true (es.map SEv.readable ++ [SEv.closeEv])
          ⟨0, 0, 0, false, false, false, [], registerAll, 0, 0⟩ from rfl, h1]
    show ROut.ok ⟨st'.index, st'.reads, st'.length, st'.clock⟩ = _
    rw [hidx, hreads, hlen]
    simp
  · obtain ⟨st', h1, _, _, hidx, hreads, hlen, _, _, _, _⟩ :=
      readLoop_readables recv false [SEv.closeEv] hrecv es
        ⟨0, 0, 0, false, false, false, [], registerAll, 0, 0⟩ hes rfl rfl rfl
    refine ⟨st'.clock, ?_⟩
    rw [show readRun recv false (es.map SEv.readable ++ [SEv.closeEv]) =
        readLoop recv false (es.map SEv.readable ++ [SEv.closeEv])
          ⟨0, 0, 0, false, false, false, [], registerAll, 0, 0⟩ from rfl, h1]
    show ROut.ok ⟨st'.index, st'.reads, st'.length, st'.clock⟩ = _
    rw [hidx, hreads, hlen]
    simp
  · obtain ⟨st', h1, _, _, _, _, _, _, _, _, _⟩ :=
      readLoop_readables recv true [SEv.endEv] hrecv es
        ⟨0, 0, 0, false, false, false, [], registerAll, 0, 0⟩ hes rfl rfl rfl
    rw [show readRun recv true (es.map SEv.readable ++ [SEv.endEv]) =
        readLoop recv true (es.map SEv.readable ++ [SEv.endEv])
          ⟨0, 0, 0, false, false, false, [], registerAll, 0, 0⟩ from rfl, h1]
    rfl

/-- C5 witness: the spec's own stream example — chunks `[a, b]` then
`[c]` then `end` — yields 3 reads, total length `a + b + c` and two
receiver calls; with `closable` set, the same events leave the run
pending. -/
theorem c5_read_settlement_witness :
    (∃ dur, (readRun syncRecv false
      ([[1, 2], [3]].map SEv.readable ++ [SEv.endEv])).out = .ok ⟨2, 3, 6, dur⟩) ∧
    (readRun syncRecv true
      ([[1, 2], [3]].map SEv.readable ++ [SEv.endEv])).out = .pending := by
  have h := c5_read_settlement syncRecv [[1, 2], [3]]
    (fun _ _ _ => Or.inl rfl) (by decide)
  exact ⟨by simpa using h.1, h.2.2.2⟩

/-- Either a read run is still pending, or it has settled with all
listeners removed and the settlement-path log showing the `cleanup()`
call strictly before the resolve/reject. -/
def settledCleanup (r : ReadRun) : Prop :=
  r.out = .pending ∨
    (r.final.listeners = [] ∧
      (r.log = [Act.cleanupAct, Act.settleRes] ∨
       r.log = [Act.cleanupAct, Act.settleRej]))

/-- Every read run that settles removes all four listeners before the
governing promise settles (the loop states never touch `listeners`;
only `success`/`fail` do, through `cleanup()`). -/
theorem readLoop_cleanup (recv : Nat → List Nat → Option Nat → DRes)
    (closable : Bool) :
    ∀ (evs : List SEv) (st : RState), st.listeners = registerAll →
      settledCleanup (readLoop recv closable evs st) := by
  intro evs
  induction evs with
  | nil => intro st _; exact Or.inl rfl
  | cons ev rest ih =>
    intro st hlst
    cases ev <;> rw [readLoop]
    all_goals try simp only []
    all_goals repeat' split
    all_goals first
      | exact ih _ (by simpa using hlst)
      | (refine Or.inr ⟨?_, ?_⟩ <;>
          simp [readSuccess, readFail, settledCleanup, hlst, cleanupL,
            removeL, registerAll])

/-- C9: for every terminating (settled) run of `read`, on both the
success and the failure path all four event listeners registered by
`read` (`readable`, `end`, `close`, `error`) are removed from the
stream before the governing promise settles: the final state retains
no listener of this invocation and the settlement log is exactly
`cleanup` followed by resolve/reject. -/
theorem c9_read_cleanup (recv : Nat → List Nat → Option Nat → DRes)
    (closable : Bool) (events : List SEv)
    (h : (readRun recv closable events).out ≠ .pending) :
    (readRun recv closable events).final.listeners = [] ∧
    ((readRun recv closable events).log = [Act.cleanupAct, Act.settleRes] ∨
     (readRun recv closable events).log = [Act.cleanupAct, Act.settleRej]) := by
  have ht := readLoop_cleanup recv closable events
    ⟨0, 0, 0, false, false, false, [], registerAll, 0, 0⟩ rfl
  rcases ht with hp | hok
  · exact absurd hp h
  · exact hok

/-- C9 witness: the single-`end` run settles with no listeners left
and the cleanup-then-resolve log. -/
theorem c9_read_cleanup_witness :
    (readRun syncRecv false [SEv.endEv]).final.listeners = [] ∧
    ((readRun syncRecv false [SEv.endEv]).log = [Act.cleanupAct, Act.settleRes] ∨
     (readRun syncRecv false [SEv.endEv]).log = [Act.cleanupAct, Act.settleRej]) :=
  c9_read_cleanup syncRecv false [SEv.endEv]
    (by rw [show (readRun syncRecv false [SEv.endEv]).out =
        ROut.ok ⟨0, 0, 0, 0⟩ from rfl]; intro hc; cases hc)

/-- The pull index expected by the scanner after the pulls `0..i-1`. -/
def prevOf : Nat → Option Nat
  | 0 => none
  | j + 1 => some j

/-- A pull at index `i` from a clean scanner state expecting it moves
the scanner to the clean state after `i`. -/
theorem serChunk_pull (b : SerSt) (i : Nat)
    (h1 : b.pending = none) (h2 : b.ok = true) (h3 : b.last = prevOf i) :
    serStep b (.pull i) = ⟨none, some i, true⟩ := by
  cases i <;> simp_all [serStep, prevOf]

/-- A synchronous consumer call belonging to the current pull keeps
the scanner clean. -/
theorem serChunk_sync (i : Nat) :
    serStep (⟨none, some i, true⟩ : SerSt) (.consSync i) = ⟨none, some i, true⟩ := by
  simp [serStep]

/-- An asynchronous consumer call immediately followed by its
settlement keeps the scanner clean. -/
theorem serChunk_async (i : Nat) :
    serStep (serStep (⟨none, some i, true⟩ : SerSt) (.consAsync i)) (.consSettle i) =
      ⟨none, some i, true⟩ := by
  simp [serStep]

/-- The trace of any sequence run is accepted by the serialization
scanner from any clean state expecting the run's first pull. -/
theorem seqLoop_trace_serOK (src : Nat → JsVal → Option Nat → PullRes)
    (dest : Option (Nat → JsVal → Option Nat → DRes)) (limit : Nat) (track : Bool) :
    ∀ fuel (st : SeqSt) (b : SerSt), b.pending = none → b.ok = true →
      b.last = prevOf st.idx →
      (((seqLoop src dest limit track fuel st).trace).foldl serStep b).ok = true := by
  intro fuel
  induction fuel with
  | zero => intro st b h1 h2 h3; simpa [seqLoop] using h2
  | succ fuel ih =>
    intro st b h1 h2 h3
    rw [seqLoop]
    repeat' split
    all_goals try simp only [List.foldl_cons, List.foldl_nil,
      serChunk_pull b st.idx h1 h2 h3, serChunk_sync, serChunk_async]
    all_goals first
      | rfl
      | exact ih _ _ rfl rfl rfl

/-- The trace of any stream-reader run is accepted by the
serialization scanner from any clean state expecting the run's first
drain. -/
theorem readLoop_trace_serOK (recv : Nat → List Nat → Option Nat → DRes)
    (closable : Bool) :
    ∀ (evs : List SEv) (st : RState) (b : SerSt), b.pending = none →
      b.ok = true → b.last = prevOf st.index →
      (((readLoop recv closable evs st).trace).foldl serStep b).ok = true := by
  intro evs
  induction evs with
  | nil => intro st b h1 h2 h3; simpa [readLoop] using h2
  | cons ev rest ih =>
    intro st b h1 h2 h3
    cases ev <;> rw [readLoop]
    all_goals try simp only []
    all_goals repeat' split
    all_goals try simp only [readSuccess, readFail, List.foldl_cons, List.foldl_nil,
      serChunk_pull b st.index h1 h2 h3, serChunk_sync, serChunk_async]
    all_goals first
      | simpa using h2
      | rfl
      | exact ih _ _ h1 h2 h3
      | exact ih _ _ rfl rfl rfl

/-- C8: within a single driver invocation, source pulls and
destination/receiver invocations are strictly serialized: the emitted
scheduling trace of every sequence run and of every stream-reader run
passes the scanner `serOK`, which rejects any pull or consumer call
made while a consumer promise is pending and any pull whose index is
not the successor of the previous one — so the next pull/drain never
begins before the current consumption step's promise settles, and
call indices are monotone. -/
theorem c8_strict_serialization (src : Nat → JsVal → Option Nat → PullRes)
    (dest : Option (Nat → JsVal → Option Nat → DRes)) (limit : Nat) (track : Bool)
    (fuel : Nat) (recv : Nat → List Nat → Option Nat → DRes) (closable : Bool)
    (events : List SEv) :
    serOK (seqRun src dest limit track fuel).trace = true ∧
    serOK (readRun recv closable events).trace = true :=
  ⟨seqLoop_trace_serOK src dest limit track fuel
      ⟨0, .undef, 0, 0, [], 0⟩ ⟨none, none, true⟩ rfl rfl rfl,
   readLoop_trace_serOK recv closable events
      ⟨0, 0, 0, false, false, false, [], registerAll, 0, 0⟩
      ⟨none, none, true⟩ rfl rfl rfl⟩

end Claims

end Spex
